import Mathlib

/-!
Verification development for the m4a merger command-line tool
(source: m4a_merger.py). The tool discovers files with the m4a
extension in a directory, orders them with a natural numeric-aware
sort, writes a concatenation manifest, and invokes an external
encoder process. The definitions below are a shallow embedding of the
Python source: pure helpers become Lean functions, the filesystem and
the child-process boundary become explicit function parameters, and
Python exceptions become explicit error values. Digits are modelled
as the ASCII digits, which is what every filename in scope uses.
-/

namespace M4aMerger

/-- The single-quote character (code point 39), used by the manifest format. -/
def sqChar : Char := Char.ofNat 39

/-- The single-quote character as a one-character string. -/
def sq : String := String.mk [sqChar]

/-! ## Natural sort (natural_sort_key, lines 26 to 30 of the source) -/

/-- Longest run of non-digit characters at the front of a list, with the rest. -/
def spanNonDigit : List Char → List Char × List Char
  | [] => ([], [])
  | c :: cs =>
    if c.isDigit then ([], c :: cs)
    else (c :: (spanNonDigit cs).1, (spanNonDigit cs).2)

/-- Longest run of digit characters at the front of a list, with the rest. -/
def spanDigit : List Char → List Char × List Char
  | [] => ([], [])
  | c :: cs =>
    if c.isDigit then (c :: (spanDigit cs).1, (spanDigit cs).2)
    else ([], c :: cs)

/-- Fueled splitter mirroring re.split with a captured digit-run group:
the output alternates non-digit pieces (possibly empty) and non-empty
digit pieces, starting with a non-digit piece. -/
def splitRunsF : Nat → List Char → List (List Char)
  | 0, _ => []
  | fuel + 1, cs =>
    match (spanNonDigit cs).2 with
    | [] => [(spanNonDigit cs).1]
    | c :: r =>
      (spanNonDigit cs).1 :: (spanDigit (c :: r)).1
        :: splitRunsF fuel (spanDigit (c :: r)).2

/-- Split a character list into alternating non-digit and digit runs. -/
def splitRuns (cs : List Char) : List (List Char) :=
  splitRunsF (cs.length + 1) cs

/-- Decimal value of a digit run, as the int constructor of Python reads it. -/
def digitsVal (run : List Char) : Nat :=
  run.foldl (fun a c => a * 10 + (c.toNat - 48)) 0

/-- One entry of a natural-sort key: Python keeps a str for non-digit runs
and an int for digit runs. -/
inductive Chunk where
  | str (s : String)
  | num (n : Nat)
deriving DecidableEq, Repr

/-- The per-piece conversion of natural_sort_key: int(c) if c.isdigit() else c. -/
def toChunk (run : List Char) : Chunk :=
  if !run.isEmpty && run.all Char.isDigit then Chunk.num (digitsVal run)
  else Chunk.str (String.mk run)

/-- natural_sort_key from the source: split on digit runs, mapping digit runs
to integers and the other pieces to strings. -/
def natural_sort_key (text : String) : List Chunk :=
  (splitRuns text.data).map toChunk

/-- Three-way comparison of naturals. -/
def cmpNat (a b : Nat) : Ordering :=
  if a < b then Ordering.lt else if b < a then Ordering.gt else Ordering.eq

/-- Three-way comparison of characters by code point, as Python compares text. -/
def cmpChar (a b : Char) : Ordering := cmpNat a.toNat b.toNat

/-- Lexicographic comparison of character lists, as Python compares strings. -/
def cmpCharList : List Char → List Char → Ordering
  | [], [] => Ordering.eq
  | [], _ :: _ => Ordering.lt
  | _ :: _, [] => Ordering.gt
  | a :: as, b :: bs =>
    match cmpChar a b with
    | Ordering.eq => cmpCharList as bs
    | o => o

/-- Comparison of two key entries. Python raises TypeError when an int meets
a str, modelled as none. -/
def cmpChunk : Chunk → Chunk → Option Ordering
  | Chunk.str a, Chunk.str b => some (cmpCharList a.data b.data)
  | Chunk.num a, Chunk.num b => some (cmpNat a b)
  | _, _ => none

/-- Lexicographic comparison of two keys, as Python compares lists; a shorter
list that is a proper front segment of the other compares as smaller. -/
def pyCmpKey : List Chunk → List Chunk → Option Ordering
  | [], [] => some Ordering.eq
  | [], _ :: _ => some Ordering.lt
  | _ :: _, [] => some Ordering.gt
  | a :: as, b :: bs =>
    match cmpChunk a b with
    | none => none
    | some Ordering.eq => pyCmpKey as bs
    | some o => some o

/-- The strict order used by the sort: key of a compares below key of b. -/
def keyLtB (a b : String) : Bool :=
  decide (pyCmpKey (natural_sort_key a) (natural_sort_key b) = some Ordering.lt)

/-- Stable insertion of one element into a list sorted by keyLtB: the new
element goes after every element whose key is strictly below, and before
the first element whose key is not, so equal keys keep earlier elements first. -/
def insortFile (x : String) : List String → List String
  | [] => [x]
  | y :: ys => if keyLtB y x then y :: insortFile x ys else x :: y :: ys

/-- Stable ascending sort by the natural-sort key, the observable behavior of
list.sort(key=natural_sort_key) in the source. -/
def naturalSort : List String → List String
  | [] => []
  | x :: xs => insortFile x (naturalSort xs)

/-- Alternation check for a key: expects a str entry when the flag is true and
an int entry when it is false, switching at each step. -/
def altFrom : Bool → List Chunk → Bool
  | _, [] => true
  | true, Chunk.str _ :: rs => altFrom false rs
  | false, Chunk.num _ :: rs => altFrom true rs
  | _, _ => false

/-- Alternation check for split pieces: a non-digit run when the flag is true,
a non-empty digit run when it is false. -/
def piecesOk : Bool → List (List Char) → Bool
  | _, [] => true
  | true, r :: rs => r.all (fun c => !c.isDigit) && piecesOk false rs
  | false, r :: rs => (!r.isEmpty && r.all Char.isDigit) && piecesOk true rs

/-! ## File discovery (find_m4a_files, lines 33 to 51 of the source) -/

/-- A filesystem entry as the discovery stage observes it: a plain file
(or any non-directory) or a directory with a listing in discovery order. -/
inductive FsNode where
  | file
  | dir (entries : List String)
deriving DecidableEq

/-- The three exception classes the discovery stage raises. -/
inductive FindError where
  | fileNotFound (msg : String)
  | notADirectory (msg : String)
  | valueError (msg : String)
deriving DecidableEq

/-- The human-readable text carried by a discovery error. -/
def FindError.msg : FindError → String
  | FindError.fileNotFound m => m
  | FindError.notADirectory m => m
  | FindError.valueError m => m

/-- Whether glob *.m4a of pathlib matches a name: ends with the extension.
Unlike the glob module, the glob method of pathlib also matches names that
begin with a dot. -/
def matchesM4a (name : String) : Bool :=
  List.isSuffixOf (".m4a").data name.data

/-- Message of the missing-directory error. -/
def dirMissingMsg (d : String) : String :=
  "Directory " ++ sq ++ d ++ sq ++ " does not exist"

/-- Message of the not-a-directory error. -/
def notDirMsg (d : String) : String :=
  sq ++ d ++ sq ++ " is not a directory"

/-- Message of the empty-match error. -/
def noFilesMsg (d : String) : String :=
  "No M4A files found in " ++ sq ++ d ++ sq

/-- find_m4a_files from the source: check existence, check directory-ness,
glob for the extension, fail on an empty match, and return the matches in
natural-sort order. The filesystem is a map from a path to its node. -/
def find_m4a_files (fs : String → Option FsNode) (d : String) :
    Except FindError (List String) :=
  match fs d with
  | none => Except.error (FindError.fileNotFound (dirMissingMsg d))
  | some FsNode.file => Except.error (FindError.notADirectory (notDirMsg d))
  | some (FsNode.dir entries) =>
    let files := entries.filter matchesM4a
    if files = [] then Except.error (FindError.valueError (noFilesMsg d))
    else Except.ok (naturalSort files)

/-! ## Manifest generation (create_file_list, lines 54 to 64 of the source) -/

/-- One manifest line without its newline: the directive keyword, a quote,
the resolved absolute path, a quote. Path resolution queries the operating
system, so it is passed in as a function. -/
def manifestLineFor (resolve : String → String) (f : String) : String :=
  "file " ++ sq ++ resolve f ++ sq

/-- create_file_list from the source: the full text written to the manifest,
one newline-terminated line per input file, in the given order. -/
def create_file_list (resolve : String → String) (files : List String) : String :=
  files.foldl (fun acc f => acc ++ manifestLineFor resolve f ++ "\n") ""

/-- Split a character list at every occurrence of a separator. -/
def splitOnChar (sep : Char) : List Char → List (List Char)
  | [] => [[]]
  | c :: cs =>
    if c == sep then [] :: splitOnChar sep cs
    else
      match splitOnChar sep cs with
      | [] => [[c]]
      | l :: ls => (c :: l) :: ls

/-- The lines of a text, as split at newline characters. -/
def splitLines (cs : List Char) : List (List Char) :=
  splitOnChar '\n' cs

/-- Whether a manifest line is well formed under the quoted-path grammar the
external tool reads: the directive, one opening quote, a path free of quote
characters, one closing quote, nothing after. -/
def wellFormedManifestLine (line : String) : Bool :=
  match line.data with
  | 'f' :: 'i' :: 'l' :: 'e' :: ' ' :: q :: rest =>
    q == sqChar &&
      (match rest.reverse with
       | q2 :: mid => q2 == sqChar && !mid.contains sqChar
       | [] => false)
  | _ => false

/-! ## Child processes (check_ffmpeg lines 16 to 23, merge lines 67 to 105) -/

/-- Outcome of one subprocess.run call: a completed process with an exit code
and captured output streams, expiry of the given timeout, a launch failure
because the executable was not found, some other raised exception (for
example a permission error at launch), or an operator interrupt delivered
during the wait. -/
inductive ProcResult where
  | completed (returncode : Int) (stdout stderr : String)
  | timedOut
  | fileNotFound (msg : String)
  | raised (msg : String)
  | interrupted
deriving DecidableEq

/-- An exception escaping a modelled function: a generic exception value or
an operator interrupt. -/
inductive PyExn where
  | exn (msg : String)
  | keyboardInterrupt
deriving DecidableEq

/-- The bounded timeout of the availability probe, in seconds. -/
def checkTimeout : Nat := 10

/-- The bounded timeout of the merge invocation, in seconds. -/
def mergeTimeout : Nat := 300

/-- The command line of the availability probe. -/
def probeCmd : List String := ["ffmpeg", "-version"]

/-- check_ffmpeg from the source: run the version probe under the 10-second
timeout; a zero exit code means available. The except clause catches exactly
TimeoutExpired and FileNotFoundError; any other exception escapes. -/
def check_ffmpeg (run : List String → Nat → ProcResult) : Except PyExn Bool :=
  match run probeCmd checkTimeout with
  | ProcResult.completed rc _ _ => Except.ok (decide (rc = 0))
  | ProcResult.timedOut => Except.ok false
  | ProcResult.fileNotFound _ => Except.ok false
  | ProcResult.raised m => Except.error (PyExn.exn m)
  | ProcResult.interrupted => Except.error PyExn.keyboardInterrupt

/-- The concatenation command line built by the merge stage. -/
def ffmpegCmd (fileListPath outputFile : String) : List String :=
  ["ffmpeg", "-f", "concat", "-safe", "0", "-i", fileListPath,
   "-c", "copy", "-y", outputFile]

/-- How one merge attempt ended: a True return, a False return, or a
KeyboardInterrupt escaping (the except clauses catch Exception only). -/
inductive MergeStatus where
  | success
  | failure
  | interrupted
deriving DecidableEq

/-- Everything observable about one merge attempt: the manifest text written,
the command line used, how it ended, and the text printed. -/
structure MergeExec where
  manifest : String
  cmd : List String
  status : MergeStatus
  messages : List String
deriving DecidableEq

/-- merge_m4a_files from the source: write the manifest into the scoped
temporary directory, build the command, run it under the 300-second timeout,
and report the outcome. -/
def merge_m4a_files (run : List String → Nat → ProcResult)
    (resolve : String → String) (tempDir : String)
    (m4aFiles : List String) (outputFile : String) : MergeExec :=
  let fileListPath := tempDir ++ "/filelist.txt"
  let manifest := create_file_list resolve m4aFiles
  let cmd := ffmpegCmd fileListPath outputFile
  let pre := ["Merging " ++ toString m4aFiles.length ++ " M4A files...",
              "Output: " ++ outputFile]
  match run cmd mergeTimeout with
  | ProcResult.completed rc _ serr =>
    if rc = 0 then
      MergeExec.mk manifest cmd MergeStatus.success
        (pre ++ ["✓ Merge completed successfully!"])
    else
      MergeExec.mk manifest cmd MergeStatus.failure
        (pre ++ ["✗ FFmpeg error: " ++ serr])
  | ProcResult.timedOut =>
    MergeExec.mk manifest cmd MergeStatus.failure
      (pre ++ ["✗ Merge timed out (5 minutes)"])
  | ProcResult.fileNotFound m =>
    MergeExec.mk manifest cmd MergeStatus.failure
      (pre ++ ["✗ Error during merge: " ++ m])
  | ProcResult.raised m =>
    MergeExec.mk manifest cmd MergeStatus.failure
      (pre ++ ["✗ Error during merge: " ++ m])
  | ProcResult.interrupted =>
    MergeExec.mk manifest cmd MergeStatus.interrupted pre

/-! ## Output path resolution and mkdir (lines 157 to 161 of the source) -/

/-- A pathlib-style pure path: an absolute flag and the non-trivial parts.
Dot segments and empty segments vanish during parsing, as in pathlib. -/
structure PyPath where
  absolute : Bool
  parts : List String
deriving DecidableEq

/-- The path of the current directory, Path of a dot: no parts, relative. -/
def curdir : PyPath := PyPath.mk false []

/-- Whether a raw path text begins with the separator. -/
def leadingSlash (s : String) : Bool :=
  match s.data with
  | c :: _ => c == '/'
  | [] => false

/-- Parse a raw path text the way the Path constructor does: split at
separators and drop empty and dot segments. -/
def parsePath (s : String) : PyPath :=
  PyPath.mk (leadingSlash s)
    (((splitOnChar '/' s.data).map String.mk).filter
      (fun c => !(c == "") && !(c == ".")))

/-- The parent property of pathlib: drop the last part; the current directory
and the root are their own parents. -/
def PyPath.parent (p : PyPath) : PyPath :=
  if p.parts = [] then p else PyPath.mk p.absolute p.parts.dropLast

/-- The slash join operator of pathlib restricted to what the source uses:
joining a relative right operand appends its parts; an absolute right
operand wins outright. -/
def joinRel (base : PyPath) (p : PyPath) : PyPath :=
  if p.absolute then p else PyPath.mk base.absolute (base.parts ++ p.parts)

/-- The default output folder name. -/
def mergedDir : String := "merged"

/-- Output path resolution from main: a path whose parent is the current
directory is rewritten under the merged folder; anything else is unchanged. -/
def resolveOutputPath (p : PyPath) : PyPath :=
  if p.parent = curdir then joinRel (PyPath.mk false [mergedDir]) p else p

/-- Every directory that mkdir with parents=True creates or requires: each
front segment of the parts, shortest first. -/
def ancestorChain (p : PyPath) : List PyPath :=
  (List.range p.parts.length).map
    (fun i => PyPath.mk p.absolute (p.parts.take (i + 1)))

/-- The directory set after a successful mkdir with parents=True: the old
set plus every missing ancestor. -/
def mkdirResult (st : List PyPath) (p : PyPath) : List PyPath :=
  st ++ (ancestorChain p).filter (fun q => decide (¬ q ∈ st))

/-- mkdir of pathlib over an explicit set of existing directories, with the
parents and exist_ok flags; the source calls it with both flags set. -/
def mkdir (st : List PyPath) (p : PyPath) (parents existOk : Bool) :
    Except String (List PyPath) :=
  if existOk = false ∧ p ∈ st then Except.error "FileExistsError"
  else if parents = false ∧ p.parent ≠ curdir ∧ ¬ p.parent ∈ st then
    Except.error "FileNotFoundError"
  else Except.ok (mkdirResult st p)

/-- Render a pure path back to text. -/
def joinParts : List String → String
  | [] => ""
  | [x] => x
  | x :: y :: r => x ++ "/" ++ joinParts (y :: r)

/-- Render a pure path back to text, with a leading separator when absolute. -/
def renderPath (p : PyPath) : String :=
  (if p.absolute then "/" else "") ++ joinParts p.parts

/-! ## The main pipeline (main, lines 108 to 181 of the source) -/

/-- Everything observable about one run of main after argument parsing: the
process exit status, the printed text, and the intermediate artifacts when
the run reached them (the discovered list, the resolved output path, the
manifest text, and the external command line). -/
structure MainResult where
  exitCode : Nat
  messages : List String
  discovered : Option (List String)
  resolvedOutput : Option PyPath
  manifest : Option String
  cmd : Option (List String)
deriving DecidableEq

/-- The enumerated listing printed under the verbose flag. -/
def verboseListing (files : List String) : List String :=
  ("Found " ++ toString files.length ++ " M4A files:")
    :: (files.enum.map (fun p => "  " ++ toString (p.1 + 1) ++ ". " ++ p.2))
    ++ [""]

/-- main from the source, after argument parsing: probe the tool, discover
files, optionally print the listing, resolve the output path, create its
parent directory, merge, and turn every outcome into an exit status. A
generic exception escaping the probe ends the interpreter with status 1;
an interrupt escaping it kills the process with the interrupt signal,
rendered as status 130. The mkdirExn parameter is the exception an
operating-system failure of mkdir would raise, none when mkdir succeeds. -/
def main (run : List String → Nat → ProcResult) (fs : String → Option FsNode)
    (resolve : String → String) (tempDir : String) (mkdirExn : Option String)
    (inputDir outputArg : String) (verbose : Bool) : MainResult :=
  match check_ffmpeg run with
  | Except.error (PyExn.exn m) =>
    MainResult.mk 1 ["Traceback: " ++ m] none none none none
  | Except.error PyExn.keyboardInterrupt =>
    MainResult.mk 130 ["KeyboardInterrupt"] none none none none
  | Except.ok false =>
    MainResult.mk 1
      ["✗ FFmpeg is not installed or not in PATH",
       "Please install FFmpeg: https://ffmpeg.org/download.html"]
      none none none none
  | Except.ok true =>
    match find_m4a_files fs inputDir with
    | Except.error e =>
      MainResult.mk 1 ["✗ Error: " ++ e.msg] none none none none
    | Except.ok files =>
      let vmsgs := if verbose then verboseListing files else []
      let outPath := resolveOutputPath (parsePath outputArg)
      match mkdirExn with
      | some m =>
        MainResult.mk 1 (vmsgs ++ ["✗ Unexpected error: " ++ m])
          (some files) (some outPath) none none
      | none =>
        let ex := merge_m4a_files run resolve tempDir files (renderPath outPath)
        match ex.status with
        | MergeStatus.interrupted =>
          MainResult.mk 1 (vmsgs ++ ex.messages ++ ["✗ Merge cancelled by user"])
            (some files) (some outPath) (some ex.manifest) (some ex.cmd)
        | MergeStatus.success =>
          MainResult.mk 0
            (vmsgs ++ ex.messages
              ++ ["✓ Merged file saved to: " ++ resolve (renderPath outPath)])
            (some files) (some outPath) (some ex.manifest) (some ex.cmd)
        | MergeStatus.failure =>
          MainResult.mk 1 (vmsgs ++ ex.messages ++ ["✗ Merge failed"])
            (some files) (some outPath) (some ex.manifest) (some ex.cmd)

/-! ## Concrete runners and inputs used by closed statements -/

/-- A runner whose launch raises a permission error, an exception outside the
except clause of the availability check. -/
def permRunner : List String → Nat → ProcResult :=
  fun _ _ => ProcResult.raised "PermissionError"

/-- A runner whose child always completes at once with exit code zero. -/
def happyRunner : List String → Nat → ProcResult :=
  fun _ _ => ProcResult.completed 0 "" ""

/-- A runner whose child always fails with diagnostic text on stderr. -/
def boomRunner : List String → Nat → ProcResult :=
  fun _ _ => ProcResult.completed 1 "" "boom"

/-- A runner whose launch fails because the executable is not on the path. -/
def missingRunner : List String → Nat → ProcResult :=
  fun _ _ => ProcResult.fileNotFound "ffmpeg"

/-- A runner whose child never finishes before the timeout. -/
def slowRunner : List String → Nat → ProcResult :=
  fun _ _ => ProcResult.timedOut

/-- A filesystem with one directory holding three matching files (one of
them a dot-file, which glob also matches) and a non-matching file. -/
def fsW : String → Option FsNode :=
  fun d => if d == "inbox" then
    some (FsNode.dir ["b10.m4a", "b2.m4a", ".hidden.m4a", "note.txt"])
  else none

/-- A resolver that prefixes a fixed absolute root. -/
def resolveW : String → String := fun s => "/abs/" ++ s

/-- An input path containing an embedded single quote. -/
def quotePathEx : String := "/tmp/it" ++ sq ++ "s.m4a"

/-! ## Helper lemmas -/

theorem isPrefixOf_append_self (l t : List Char) : l.isPrefixOf (l ++ t) = true := by
  induction l with
  | nil => simp [List.isPrefixOf]
  | cons a as ih => simp [List.isPrefixOf, ih]

theorem timeoutMsg_ne_ffmpegErrMsg (se : String) :
    "✗ Merge timed out (5 minutes)" ≠ "✗ FFmpeg error: " ++ se := by
  intro h
  have h2 : ("✗ Merge timed out (5 minutes)").data
      = ("✗ FFmpeg error: ").data ++ se.data := by
    rw [h]; rfl
  have htrue : ("✗ FFmpeg error: ").data.isPrefixOf
      (("✗ Merge timed out (5 minutes)").data) = true := by
    rw [h2]; exact isPrefixOf_append_self _ _
  have hfalse : ("✗ FFmpeg error: ").data.isPrefixOf
      (("✗ Merge timed out (5 minutes)").data) = false := by decide
  rw [htrue] at hfalse
  exact Bool.noConfusion hfalse

theorem spanNonDigit_append (cs : List Char) :
    (spanNonDigit cs).1 ++ (spanNonDigit cs).2 = cs := by
  induction cs with
  | nil => rfl
  | cons c cs ih => by_cases h : c.isDigit <;> simp [spanNonDigit, h, ih]

theorem spanNonDigit_fst (cs : List Char) :
    ∀ c ∈ (spanNonDigit cs).1, c.isDigit = false := by
  induction cs with
  | nil => intro c hc; simp [spanNonDigit] at hc
  | cons a cs ih =>
    intro c hc
    by_cases h : a.isDigit
    · simp [spanNonDigit, h] at hc
    · simp [spanNonDigit, h] at hc
      rcases hc with rfl | hc
      · simpa using h
      · exact ih c hc

theorem spanNonDigit_snd_head (cs : List Char) :
    ∀ c r, (spanNonDigit cs).2 = c :: r → c.isDigit = true := by
  induction cs with
  | nil => intro c r h; simp [spanNonDigit] at h
  | cons a cs ih =>
    intro c r h
    by_cases ha : a.isDigit
    · simp [spanNonDigit, ha] at h
      rw [← h.1]
      exact ha
    · simp [spanNonDigit, ha] at h
      exact ih c r h

theorem spanDigit_append (cs : List Char) :
    (spanDigit cs).1 ++ (spanDigit cs).2 = cs := by
  induction cs with
  | nil => rfl
  | cons c cs ih => by_cases h : c.isDigit <;> simp [spanDigit, h, ih]

theorem spanDigit_fst (cs : List Char) :
    ∀ c ∈ (spanDigit cs).1, c.isDigit = true := by
  induction cs with
  | nil => intro c hc; simp [spanDigit] at hc
  | cons a cs ih =>
    intro c hc
    by_cases h : a.isDigit
    · simp only [spanDigit, if_pos h] at hc
      rcases List.mem_cons.mp hc with rfl | hc
      · exact h
      · exact ih c hc
    · simp [spanDigit, h] at hc

theorem spanDigit_cons_digit (c : Char) (cs : List Char) (h : c.isDigit = true) :
    spanDigit (c :: cs) = (c :: (spanDigit cs).1, (spanDigit cs).2) := by
  simp [spanDigit, h]

theorem spanDigit_snd_length (cs : List Char) :
    (spanDigit cs).2.length ≤ cs.length := by
  conv_rhs => rw [← spanDigit_append cs]
  rw [List.length_append]
  omega

theorem splitRunsF_pieces :
    ∀ fuel cs, cs.length < fuel → piecesOk true (splitRunsF fuel cs) = true := by
  intro fuel
  induction fuel with
  | zero => intro cs h; omega
  | succ n ih =>
    intro cs h
    have hlenEq : (spanNonDigit cs).1.length + (spanNonDigit cs).2.length = cs.length := by
      rw [← List.length_append, spanNonDigit_append]
    have hall : (spanNonDigit cs).1.all (fun c => !c.isDigit) = true := by
      rw [List.all_eq_true]
      intro x hx
      simp [spanNonDigit_fst cs x hx]
    rcases hsnd : (spanNonDigit cs).2 with _ | ⟨c, r⟩
    · simp [splitRunsF, hsnd, piecesOk, hall]
    · have hc : c.isDigit = true := spanNonDigit_snd_head cs c r hsnd
      have hq := spanDigit_cons_digit c r hc
      have hq2len : (spanDigit r).2.length ≤ r.length := spanDigit_snd_length r
      have hrec : piecesOk true (splitRunsF n (spanDigit (c :: r)).2) = true := by
        apply ih
        rw [hq]
        show (spanDigit r).2.length < n
        have h1 : r.length + 1 ≤ cs.length := by
          rw [← hlenEq, hsnd]
          simp only [List.length_cons]
          omega
        omega
      have hqall : ((spanDigit (c :: r)).1).all Char.isDigit = true := by
        rw [List.all_eq_true]
        intro x hx
        exact spanDigit_fst (c :: r) x hx
      have hqne : ((spanDigit (c :: r)).1).isEmpty = false := by
        rw [hq]
        rfl
      simp [splitRunsF, hsnd, piecesOk, hall, hqall, hqne, hrec]

theorem toChunk_nondigit (r : List Char) (h : ∀ c ∈ r, c.isDigit = false) :
    toChunk r = Chunk.str (String.mk r) := by
  cases r with
  | nil => rfl
  | cons a as =>
    have ha : a.isDigit = false := h a (by simp)
    simp [toChunk, ha]

theorem toChunk_digit (r : List Char) (hne : r ≠ []) (h : r.all Char.isDigit = true) :
    toChunk r = Chunk.num (digitsVal r) := by
  cases r with
  | nil => exact absurd rfl hne
  | cons a as => simp [toChunk, h]

theorem pieces_alt (ps : List (List Char)) :
    ∀ b, piecesOk b ps = true → altFrom b (ps.map toChunk) = true := by
  induction ps with
  | nil => intro b _; cases b <;> rfl
  | cons r rs ih =>
    intro b h
    cases b
    · rw [piecesOk] at h
      rw [Bool.and_eq_true, Bool.and_eq_true] at h
      obtain ⟨⟨h1, h2⟩, h3⟩ := h
      have hne : r ≠ [] := by
        intro hr
        subst hr
        simp at h1
      rw [List.map_cons, toChunk_digit r hne h2]
      rw [altFrom]
      exact ih true h3
    · rw [piecesOk] at h
      rw [Bool.and_eq_true] at h
      obtain ⟨h1, h2⟩ := h
      have hnd : ∀ c ∈ r, c.isDigit = false := by
        intro c hc
        have := List.all_eq_true.mp h1 c hc
        simpa using this
      rw [List.map_cons, toChunk_nondigit r hnd]
      rw [altFrom]
      exact ih false h2

theorem key_alt (s : String) : altFrom true (natural_sort_key s) = true := by
  unfold natural_sort_key splitRuns
  exact pieces_alt _ true (splitRunsF_pieces _ _ (Nat.lt_succ_self _))

theorem cmpNat_refl (n : Nat) : cmpNat n n = Ordering.eq := by simp [cmpNat]

theorem cmpNat_eq_iff (a b : Nat) : cmpNat a b = Ordering.eq ↔ a = b := by
  unfold cmpNat
  split_ifs with h1 h2
  · constructor
    · intro h; exact absurd h (by decide)
    · intro h; omega
  · constructor
    · intro h; exact absurd h (by decide)
    · intro h; omega
  · constructor
    · intro _; omega
    · intro _; rfl

theorem cmpNat_swap (a b : Nat) : (cmpNat a b).swap = cmpNat b a := by
  unfold cmpNat
  split_ifs <;> first | rfl | omega

theorem cmpChar_refl (c : Char) : cmpChar c c = Ordering.eq := cmpNat_refl _

theorem cmpChar_swap (a b : Char) : (cmpChar a b).swap = cmpChar b a := cmpNat_swap _ _

theorem cmpChar_eq_iff (a b : Char) : cmpChar a b = Ordering.eq ↔ a = b := by
  unfold cmpChar
  rw [cmpNat_eq_iff]
  constructor
  · intro h; exact Char.eq_of_val_eq (UInt32.toNat.inj h)
  · intro h; rw [h]

theorem cmpCharList_refl : ∀ l, cmpCharList l l = Ordering.eq := by
  intro l
  induction l with
  | nil => rfl
  | cons a as ih => simp [cmpCharList, cmpChar_refl, ih]

theorem cmpCharList_swap : ∀ a b, (cmpCharList a b).swap = cmpCharList b a := by
  intro a
  induction a with
  | nil => intro b; cases b <;> rfl
  | cons x xs ih =>
    intro b
    cases b with
    | nil => rfl
    | cons y ys =>
      have hcy : cmpChar y x = (cmpChar x y).swap := (cmpChar_swap x y).symm
      rcases hc : cmpChar x y with _ | _ | _
      · rw [hc] at hcy
        simp only [Ordering.swap] at hcy
        simp [cmpCharList, hc, hcy, Ordering.swap]
      · rw [hc] at hcy
        simp only [Ordering.swap] at hcy
        simp only [cmpCharList, hc, hcy]
        exact ih ys
      · rw [hc] at hcy
        simp only [Ordering.swap] at hcy
        simp [cmpCharList, hc, hcy, Ordering.swap]

theorem cmpCharList_eq_iff : ∀ a b, cmpCharList a b = Ordering.eq ↔ a = b := by
  intro a
  induction a with
  | nil => intro b; cases b <;> simp [cmpCharList]
  | cons x xs ih =>
    intro b
    cases b with
    | nil => simp [cmpCharList]
    | cons y ys =>
      rcases hc : cmpChar x y with _ | _ | _
      · simp [cmpCharList, hc]
        intro he
        rw [he] at hc
        rw [cmpChar_refl] at hc
        exact absurd hc (by decide)
      · have hxy : x = y := (cmpChar_eq_iff x y).mp hc
        subst hxy
        simp [cmpCharList, hc, ih ys]
      · simp [cmpCharList, hc]
        intro he
        rw [he] at hc
        rw [cmpChar_refl] at hc
        exact absurd hc (by decide)

theorem cmpChunk_refl (c : Chunk) : cmpChunk c c = some Ordering.eq := by
  cases c <;> simp [cmpChunk, cmpCharList_refl, cmpNat_refl]

theorem cmpChunk_swap (a b : Chunk) :
    (cmpChunk a b).map Ordering.swap = cmpChunk b a := by
  cases a <;> cases b <;> simp [cmpChunk, cmpCharList_swap, cmpNat_swap]

theorem cmpChunk_eq_iff (a b : Chunk) : cmpChunk a b = some Ordering.eq ↔ a = b := by
  cases a with
  | str s =>
    cases b with
    | str t =>
      simp [cmpChunk, cmpCharList_eq_iff]
      constructor
      · intro h; exact congrArg String.mk h
      · intro h; rw [h]
    | num m => simp [cmpChunk]
  | num n =>
    cases b with
    | str t => simp [cmpChunk]
    | num m => simp [cmpChunk, cmpNat_eq_iff]

theorem pyCmpKey_refl : ∀ k, pyCmpKey k k = some Ordering.eq := by
  intro k
  induction k with
  | nil => rfl
  | cons c cs ih => simp [pyCmpKey, cmpChunk_refl, ih]

theorem pyCmpKey_swap : ∀ k1 k2, (pyCmpKey k1 k2).map Ordering.swap = pyCmpKey k2 k1 := by
  intro k1
  induction k1 with
  | nil => intro k2; cases k2 <;> rfl
  | cons c cs ih =>
    intro k2
    cases k2 with
    | nil => rfl
    | cons d ds =>
      rcases hc : cmpChunk c d with _ | oc
      · have hcd : cmpChunk d c = none := by
          rw [← cmpChunk_swap c d, hc]
          rfl
        simp [pyCmpKey, hc, hcd]
      · have hcd : cmpChunk d c = some oc.swap := by
          rw [← cmpChunk_swap c d, hc]
          rfl
        simp only [Ordering.swap] at hcd
        cases oc <;> simp [pyCmpKey, hc, hcd, ih ds, Ordering.swap]

theorem pyCmpKey_isSome (k1 : List Chunk) :
    ∀ (b : Bool) (k2 : List Chunk), altFrom b k1 = true → altFrom b k2 = true →
      (pyCmpKey k1 k2).isSome = true := by
  induction k1 with
  | nil => intro b k2 _ _; cases k2 <;> simp [pyCmpKey]
  | cons c cs ih =>
    intro b k2 h1 h2
    cases k2 with
    | nil => simp [pyCmpKey]
    | cons d ds =>
      cases b
      · cases c with
        | str s => simp [altFrom] at h1
        | num n =>
          cases d with
          | str t => simp [altFrom] at h2
          | num m =>
            rw [altFrom] at h1 h2
            rcases ho : cmpNat n m with _ | _ | _ <;>
              simp [pyCmpKey, cmpChunk, ho]
            exact ih true ds h1 h2
      · cases c with
        | num n => simp [altFrom] at h1
        | str s =>
          cases d with
          | num m => simp [altFrom] at h2
          | str t =>
            rw [altFrom] at h1 h2
            rcases ho : cmpCharList s.data t.data with _ | _ | _ <;>
              simp [pyCmpKey, cmpChunk, ho]
            exact ih false ds h1 h2

theorem keyLtB_asymm (a b : String) (h : keyLtB a b = true) : keyLtB b a = false := by
  rw [keyLtB, decide_eq_true_eq] at h
  have hs := pyCmpKey_swap (natural_sort_key a) (natural_sort_key b)
  rw [h] at hs
  rw [keyLtB, ← hs]
  simp [Ordering.swap]

theorem keyLtB_of_key_eq (a b : String)
    (h : natural_sort_key a = natural_sort_key b) : keyLtB a b = false := by
  rw [keyLtB, h, pyCmpKey_refl]
  simp

theorem insortFile_perm (x : String) : ∀ l, (insortFile x l).Perm (x :: l) := by
  intro l
  induction l with
  | nil => exact List.Perm.refl _
  | cons y ys ih =>
    by_cases h : keyLtB y x
    · rw [insortFile, if_pos h]
      exact (ih.cons y).trans (List.Perm.swap x y ys)
    · rw [insortFile, if_neg h]

theorem naturalSort_perm : ∀ l, (naturalSort l).Perm l := by
  intro l
  induction l with
  | nil => exact List.Perm.refl _
  | cons x xs ih => exact (insortFile_perm x (naturalSort xs)).trans (ih.cons x)

theorem insortFile_head (x : String) (l : List String) :
    (insortFile x l).head? = some x ∨ (insortFile x l).head? = l.head? := by
  cases l with
  | nil => left; rfl
  | cons y ys =>
    by_cases h : keyLtB y x
    · right; simp [insortFile, h]
    · left; simp [insortFile, h]

theorem chain_insortFile (x : String) :
    ∀ l, List.Chain' (fun a b => keyLtB b a = false) l →
      List.Chain' (fun a b => keyLtB b a = false) (insortFile x l) := by
  intro l
  induction l with
  | nil => intro _; simp [insortFile]
  | cons y ys ih =>
    intro h
    rw [List.chain'_cons'] at h
    by_cases hlt : keyLtB y x
    · rw [insortFile, if_pos hlt, List.chain'_cons']
      constructor
      · intro z hz
        rcases insortFile_head x ys with hh | hh
        · rw [hh] at hz
          simp at hz
          subst hz
          exact keyLtB_asymm y x hlt
        · rw [hh] at hz
          exact h.1 z hz
      · exact ih h.2
    · rw [insortFile, if_neg hlt, List.chain'_cons']
      constructor
      · intro z hz
        simp at hz
        subst hz
        simpa using hlt
      · rw [List.chain'_cons']
        exact h

theorem naturalSort_chain :
    ∀ l, List.Chain' (fun a b => keyLtB b a = false) (naturalSort l) := by
  intro l
  induction l with
  | nil => simp [naturalSort]
  | cons x xs ih => exact chain_insortFile x (naturalSort xs) ih

theorem filter_insortFile_neg (p : String → Bool) (x : String) (hp : p x = false) :
    ∀ l, (insortFile x l).filter p = l.filter p := by
  intro l
  induction l with
  | nil => simp [insortFile, hp]
  | cons y ys ih =>
    by_cases h : keyLtB y x
    · rw [insortFile, if_pos h, List.filter_cons, List.filter_cons]
      cases hpy : p y <;> simp [hpy, ih]
    · rw [insortFile, if_neg h, List.filter_cons, hp]
      simp

theorem filter_insortFile_pos (p : String → Bool) (x : String) (hp : p x = true)
    (hcomp : ∀ y, p y = true → keyLtB y x = false) :
    ∀ l, (insortFile x l).filter p = x :: l.filter p := by
  intro l
  induction l with
  | nil => simp [insortFile, hp]
  | cons y ys ih =>
    by_cases h : keyLtB y x
    · have hpy : p y = false := by
        rcases hpv : p y with _ | _
        · rfl
        · rw [hcomp y hpv] at h
          exact absurd h (by decide)

      rw [insortFile, if_pos h, List.filter_cons, hpy, List.filter_cons, hpy]
      simp [ih]
    · rw [insortFile, if_neg h, List.filter_cons, hp]
      simp

theorem naturalSort_stable (k : List Chunk) :
    ∀ l, (naturalSort l).filter (fun s => decide (natural_sort_key s = k))
      = l.filter (fun s => decide (natural_sort_key s = k)) := by
  intro l
  induction l with
  | nil => rfl
  | cons x xs ih =>
    by_cases hx : natural_sort_key x = k
    · rw [naturalSort]
      rw [filter_insortFile_pos _ x (by simp [hx]) ?hcomp, ih, List.filter_cons]
      case hcomp =>
        intro y hy
        rw [decide_eq_true_eq] at hy
        exact keyLtB_of_key_eq y x (hy.trans hx.symm)
      simp [hx]
    · rw [naturalSort]
      rw [filter_insortFile_neg _ x (by simp [hx]), ih, List.filter_cons]
      simp [hx]

theorem string_data_append (s t : String) : (s ++ t).data = s.data ++ t.data := rfl

theorem newline_data : ("\n").data = ['\n'] := rfl

theorem splitOnChar_append_sep (sep : Char) (rest : List Char) :
    ∀ a : List Char, (∀ c ∈ a, (c == sep) = false) →
      splitOnChar sep (a ++ sep :: rest) = a :: splitOnChar sep rest := by
  intro a
  induction a with
  | nil => intro _; simp [splitOnChar]
  | cons c cs ih =>
    intro h
    have hc : (c == sep) = false := h c (by simp)
    have ihh := ih (fun x hx => h x (by simp [hx]))
    simp [splitOnChar, hc, ihh]

theorem create_file_list_data (resolve : String → String) :
    ∀ (files : List String) (acc : String),
      (files.foldl (fun acc f => acc ++ manifestLineFor resolve f ++ "\n") acc).data
        = acc.data
            ++ (files.map (fun f => (manifestLineFor resolve f).data ++ ['\n'])).flatten := by
  intro files
  induction files with
  | nil => intro acc; simp
  | cons f fs ih =>
    intro acc
    rw [List.foldl_cons, ih]
    simp [string_data_append, newline_data, List.append_assoc, List.flatten]

theorem newline_not_mem_line (resolve : String → String) (f : String)
    (h : ¬ '\n' ∈ (resolve f).data) : ¬ '\n' ∈ (manifestLineFor resolve f).data := by
  intro hm
  rw [manifestLineFor, string_data_append, string_data_append, string_data_append] at hm
  simp only [List.mem_append] at hm
  rcases hm with ((h1 | h2) | h3) | h4
  · exact absurd h1 (by decide)
  · exact absurd h2 (by decide)
  · exact h h3
  · exact absurd h4 (by decide)

theorem manifest_split_join (resolve : String → String) :
    ∀ files : List String,
      (∀ f ∈ files, ¬ '\n' ∈ (manifestLineFor resolve f).data) →
      splitOnChar '\n'
          ((files.map (fun f => (manifestLineFor resolve f).data ++ ['\n'])).flatten)
        = files.map (fun f => (manifestLineFor resolve f).data) ++ [[]] := by
  intro files
  induction files with
  | nil => intro _; rfl
  | cons f fs ih =>
    intro h
    have hline : ∀ c ∈ (manifestLineFor resolve f).data, (c == '\n') = false := by
      intro c hc
      rw [beq_eq_false_iff_ne]
      intro he
      subst he
      exact h f (by simp) hc
    rw [List.map_cons, List.flatten_cons, List.append_assoc, List.singleton_append]
    rw [splitOnChar_append_sep '\n' _ _ hline]
    rw [ih (fun x hx => h x (by simp [hx]))]
    rfl

theorem manifest_lines (resolve : String → String) (files : List String)
    (h : ∀ f ∈ files, ¬ '\n' ∈ (manifestLineFor resolve f).data) :
    splitLines (create_file_list resolve files).data
      = files.map (fun f => (manifestLineFor resolve f).data) ++ [[]] := by
  have hd := create_file_list_data resolve files ""
  rw [splitLines, create_file_list, hd, List.nil_append]
  exact manifest_split_join resolve files h

/-! ## Claim theorems -/

/-- C1: on a directory whose matching entries are non-empty, discovery returns
exactly the natural-sort ordering of the matching entries, and the manifest
written for them splits at newlines into one line per input file, in that
same order, each line being the directive keyword followed by the quoted
resolved path, with the trailing empty piece witnessing that every line is
newline-terminated. -/
theorem c1 (fs : String → Option FsNode) (d : String) (es : List String)
    (resolve : String → String)
    (hd : fs d = some (FsNode.dir es))
    (hne : es.filter matchesM4a ≠ [])
    (hnl : (naturalSort (es.filter matchesM4a)).all
        (fun f => decide (¬ '\n' ∈ (resolve f).data)) = true) :
    find_m4a_files fs d = Except.ok (naturalSort (es.filter matchesM4a))
    ∧ splitLines (create_file_list resolve (naturalSort (es.filter matchesM4a))).data
        = (naturalSort (es.filter matchesM4a)).map
            (fun f => (manifestLineFor resolve f).data) ++ [[]]
    ∧ ((naturalSort (es.filter matchesM4a)).map
          (fun f => (manifestLineFor resolve f).data)).length
        = (naturalSort (es.filter matchesM4a)).length := by
  refine ⟨by simp [find_m4a_files, hd, hne], ?_, by simp⟩
  apply manifest_lines
  intro f hf
  have hx := List.all_eq_true.mp hnl f hf
  rw [decide_eq_true_eq] at hx
  exact newline_not_mem_line resolve f hx

/-- C1 witness: the concrete directory from fsW has three matching files
(the dot-file included), the sorted order is numeric-aware, and the manifest
holds exactly those three lines in that order. -/
theorem c1_witness :
    fsW ("inbox") = some (FsNode.dir ["b10.m4a", "b2.m4a", ".hidden.m4a", "note.txt"])
    ∧ ["b10.m4a", "b2.m4a", ".hidden.m4a", "note.txt"].filter matchesM4a ≠ []
    ∧ (naturalSort (["b10.m4a", "b2.m4a", ".hidden.m4a", "note.txt"].filter matchesM4a)).all
        (fun f => decide (¬ '\n' ∈ (resolveW f).data)) = true
    ∧ find_m4a_files fsW ("inbox")
        = Except.ok (naturalSort
            (["b10.m4a", "b2.m4a", ".hidden.m4a", "note.txt"].filter matchesM4a))
    ∧ splitLines (create_file_list resolveW
          (naturalSort (["b10.m4a", "b2.m4a", ".hidden.m4a", "note.txt"].filter matchesM4a))).data
        = (naturalSort (["b10.m4a", "b2.m4a", ".hidden.m4a", "note.txt"].filter matchesM4a)).map
            (fun f => (manifestLineFor resolveW f).data) ++ [[]] :=
  ⟨rfl, by decide, by decide,
    (c1 fsW ("inbox") ["b10.m4a", "b2.m4a", ".hidden.m4a", "note.txt"] resolveW
      rfl (by decide) (by decide)).1,
    (c1 fsW ("inbox") ["b10.m4a", "b2.m4a", ".hidden.m4a", "note.txt"] resolveW
      rfl (by decide) (by decide)).2.1⟩

/-- C9: after argument parsing, with interrupts arriving at the blocking
child-process wait of the merge stage, every run exits with status 0 or 1,
and status 0 holds exactly when the probe succeeded, the directory creation
raised nothing, discovery succeeded, and the merge child exited zero. -/
theorem c9 (run : List String → Nat → ProcResult) (fs : String → Option FsNode)
    (resolve : String → String) (tempDir : String) (mkdirExn : Option String)
    (inputDir outputArg : String) (verbose : Bool)
    (hni : run probeCmd checkTimeout ≠ ProcResult.interrupted) :
    ((main run fs resolve tempDir mkdirExn inputDir outputArg verbose).exitCode = 0
      ∨ (main run fs resolve tempDir mkdirExn inputDir outputArg verbose).exitCode = 1)
    ∧ ((main run fs resolve tempDir mkdirExn inputDir outputArg verbose).exitCode = 0
        ↔ (check_ffmpeg run = Except.ok true ∧ mkdirExn = none ∧
            match find_m4a_files fs inputDir with
            | Except.ok files =>
                (merge_m4a_files run resolve tempDir files
                    (renderPath (resolveOutputPath (parsePath outputArg)))).status
                  = MergeStatus.success
            | Except.error _ => False)) := by
  rcases hr : run probeCmd checkTimeout with ⟨rc, so, se⟩ | _ | m | m | _
  · by_cases hrc : rc = 0
    · rcases hf : find_m4a_files fs inputDir with e | files
      · simp [main, check_ffmpeg, hr, hrc, hf]
      · rcases mkdirExn with _ | m2
        · rcases hs : (merge_m4a_files run resolve tempDir files
              (renderPath (resolveOutputPath (parsePath outputArg)))).status
            with _ | _ | _ <;> simp [main, check_ffmpeg, hr, hrc, hf, hs]
        · simp [main, check_ffmpeg, hr, hrc, hf]
    · simp [main, check_ffmpeg, hr, hrc]
  · simp [main, check_ffmpeg, hr]
  · simp [main, check_ffmpeg, hr]
  · simp [main, check_ffmpeg, hr]
  · exact absurd hr hni

/-- C9 witness: with the tool available, a populated directory and a child
exiting zero, the run exits 0 and the success condition holds. -/
theorem c9_witness :
    happyRunner probeCmd checkTimeout ≠ ProcResult.interrupted
    ∧ ((main happyRunner fsW resolveW ("/tmp/t") none ("inbox") ("out.m4a") false).exitCode = 0
      ∨ (main happyRunner fsW resolveW ("/tmp/t") none ("inbox") ("out.m4a") false).exitCode = 1)
    ∧ ((main happyRunner fsW resolveW ("/tmp/t") none ("inbox") ("out.m4a") false).exitCode = 0
        ↔ (check_ffmpeg happyRunner = Except.ok true ∧ (none : Option String) = none ∧
            match find_m4a_files fsW ("inbox") with
            | Except.ok files =>
                (merge_m4a_files happyRunner resolveW ("/tmp/t") files
                    (renderPath (resolveOutputPath (parsePath ("out.m4a"))))).status
                  = MergeStatus.success
            | Except.error _ => False)) :=
  by
  refine ⟨(fun h => nomatch h), ?_, ?_⟩
  · exact (c9 happyRunner fsW resolveW ("/tmp/t") none ("inbox") ("out.m4a") false
      (fun h => nomatch h)).1
  · exact (c9 happyRunner fsW resolveW ("/tmp/t") none ("inbox") ("out.m4a") false
      (fun h => nomatch h)).2

/-- C10: the verbose flag influences only the printed enumeration: the exit
status, the discovered list, the resolved output path, the manifest and the
external command line are identical between the two runs, and the verbose
transcript is the plain transcript with an extra block inserted. -/
theorem c10 (run : List String → Nat → ProcResult) (fs : String → Option FsNode)
    (resolve : String → String) (tempDir : String) (mkdirExn : Option String)
    (inputDir outputArg : String) :
    (main run fs resolve tempDir mkdirExn inputDir outputArg true).exitCode
      = (main run fs resolve tempDir mkdirExn inputDir outputArg false).exitCode
    ∧ (main run fs resolve tempDir mkdirExn inputDir outputArg true).discovered
      = (main run fs resolve tempDir mkdirExn inputDir outputArg false).discovered
    ∧ (main run fs resolve tempDir mkdirExn inputDir outputArg true).resolvedOutput
      = (main run fs resolve tempDir mkdirExn inputDir outputArg false).resolvedOutput
    ∧ (main run fs resolve tempDir mkdirExn inputDir outputArg true).manifest
      = (main run fs resolve tempDir mkdirExn inputDir outputArg false).manifest
    ∧ (main run fs resolve tempDir mkdirExn inputDir outputArg true).cmd
      = (main run fs resolve tempDir mkdirExn inputDir outputArg false).cmd
    ∧ ∃ v, (main run fs resolve tempDir mkdirExn inputDir outputArg true).messages
        = v ++ (main run fs resolve tempDir mkdirExn inputDir outputArg false).messages := by
  rcases hc : check_ffmpeg run with e | b
  · refine ⟨?_, ?_, ?_, ?_, ?_, ⟨[], ?_⟩⟩ <;> cases e <;> simp [main, hc]
  · cases b
    · refine ⟨?_, ?_, ?_, ?_, ?_, ⟨[], ?_⟩⟩ <;> simp [main, hc]
    · rcases hf : find_m4a_files fs inputDir with e2 | files
      · refine ⟨?_, ?_, ?_, ?_, ?_, ⟨[], ?_⟩⟩ <;> simp [main, hc, hf]
      · rcases mkdirExn with _ | m
        · rcases hs : (merge_m4a_files run resolve tempDir files
              (renderPath (resolveOutputPath (parsePath outputArg)))).status
            with _ | _ | _ <;>
            refine ⟨?_, ?_, ?_, ?_, ?_, ⟨verboseListing files, ?_⟩⟩ <;>
            simp [main, hc, hf, hs, List.append_assoc]
        · refine ⟨?_, ?_, ?_, ?_, ?_, ⟨verboseListing files, ?_⟩⟩ <;>
            simp [main, hc, hf]

/-- C2 counterexample: the source splits media10.m4a at every digit run, so
the digit inside the extension forms its own run and the key is not the
three-piece list the claim names. -/
theorem c2_counterexample :
    natural_sort_key ("media10.m4a")
      ≠ [Chunk.str ("media"), Chunk.num 10, Chunk.str (".m4a")] := by decide

/-- C2 amended: the natural sort splits each filename into alternating runs of
non-digit and digit characters, so media10.m4a splits as media, 10, .m, 4, a;
digit runs compare by integer magnitude and non-digit runs lexically; for
inputs named a1.ext, a2.ext, a10.ext, a20.ext the produced order is exactly
a1, a2, a10, a20. -/
theorem c2 :
    natural_sort_key ("media10.m4a")
        = [Chunk.str ("media"), Chunk.num 10, Chunk.str (".m"),
           Chunk.num 4, Chunk.str ("a")]
    ∧ cmpChunk (Chunk.num 2) (Chunk.num 10) = some Ordering.lt
    ∧ cmpChunk (Chunk.str ("2")) (Chunk.str ("10")) = some Ordering.gt
    ∧ naturalSort ["a1.ext", "a10.ext", "a2.ext", "a20.ext"]
        = ["a1.ext", "a2.ext", "a10.ext", "a20.ext"]
    ∧ find_m4a_files
          (fun _ => some (FsNode.dir ["media10.m4a", "media2.m4a", "media1.m4a"]))
          ("d")
        = Except.ok ["media1.m4a", "media2.m4a", "media10.m4a"] :=
  ⟨by decide, by decide, by decide, by decide, rfl⟩

/-- C3: every natural-sort key alternates str and int entries starting with a
str, so comparing two keys is always defined (never an int against a str);
the comparison is total, sorting by it is deterministic (a function) and
yields a chain ordered under it, the output is a permutation of the input,
and entries with identical keys keep their discovery order. -/
theorem c3 :
    (∀ s : String, altFrom true (natural_sort_key s) = true)
    ∧ (∀ a b : String,
        (pyCmpKey (natural_sort_key a) (natural_sort_key b)).isSome = true)
    ∧ (∀ a b : String, keyLtB a b = true ∨ keyLtB b a = true
        ∨ pyCmpKey (natural_sort_key a) (natural_sort_key b) = some Ordering.eq)
    ∧ (∀ l : List String, (naturalSort l).Perm l)
    ∧ (∀ l : List String,
        List.Chain' (fun a b => keyLtB b a = false) (naturalSort l))
    ∧ (∀ (l : List String) (k : List Chunk),
        (naturalSort l).filter (fun s => decide (natural_sort_key s = k))
          = l.filter (fun s => decide (natural_sort_key s = k))) := by
  refine ⟨key_alt, ?_, ?_, naturalSort_perm, naturalSort_chain,
    fun l k => naturalSort_stable k l⟩
  · intro a b
    exact pyCmpKey_isSome (natural_sort_key a) true (natural_sort_key b)
      (key_alt a) (key_alt b)
  · intro a b
    have hdef := pyCmpKey_isSome (natural_sort_key a) true (natural_sort_key b)
      (key_alt a) (key_alt b)
    rcases ho : pyCmpKey (natural_sort_key a) (natural_sort_key b) with _ | o
    · rw [ho] at hdef
      exact absurd hdef (by decide)
    · cases o with
      | lt => left; simp [keyLtB, ho]
      | eq => right; right; rfl
      | gt =>
        right; left
        have hs := pyCmpKey_swap (natural_sort_key a) (natural_sort_key b)
        rw [ho] at hs
        simp only [Option.map, Ordering.swap] at hs
        simp [keyLtB, ← hs]

/-- C4: discovery of a missing path, of an existing non-directory, and of a
directory with zero matching files raises three pairwise distinct errors. -/
theorem c4 (fs : String → Option FsNode) (d : String) :
    (fs d = none →
      find_m4a_files fs d = Except.error (FindError.fileNotFound (dirMissingMsg d)))
    ∧ (fs d = some FsNode.file →
      find_m4a_files fs d = Except.error (FindError.notADirectory (notDirMsg d)))
    ∧ (∀ es, fs d = some (FsNode.dir es) → es.filter matchesM4a = [] →
      find_m4a_files fs d = Except.error (FindError.valueError (noFilesMsg d)))
    ∧ (∀ m1 m2 : String,
      FindError.fileNotFound m1 ≠ FindError.notADirectory m2
      ∧ FindError.fileNotFound m1 ≠ FindError.valueError m2
      ∧ FindError.notADirectory m1 ≠ FindError.valueError m2) := by
  refine ⟨?_, ?_, ?_, ?_⟩
  · intro h; simp [find_m4a_files, h]
  · intro h; simp [find_m4a_files, h]
  · intro es h hempty; simp [find_m4a_files, h, hempty]
  · intro m1 m2; refine ⟨?_, ?_, ?_⟩ <;> intro h <;> exact FindError.noConfusion h

/-- C4 witness: on a filesystem where the path is absent, discovery returns
the missing-directory error. -/
theorem c4_witness :
    fsW ("missing") = none
    ∧ find_m4a_files fsW ("missing")
        = Except.error (FindError.fileNotFound (dirMissingMsg ("missing"))) :=
  ⟨by decide, (c4 fsW ("missing")).1 rfl⟩

/-- C5: a bare output filename is rewritten under the merged folder, a path
with a directory component is unchanged, and the parent-directory creation
with both flags set never errors and is idempotent. -/
theorem c5 :
    (∀ name : String,
      resolveOutputPath (PyPath.mk false [name]) = PyPath.mk false [mergedDir, name])
    ∧ (∀ p : PyPath, p.parent ≠ curdir → resolveOutputPath p = p)
    ∧ resolveOutputPath (parsePath ("out.ext")) = parsePath ("merged/out.ext")
    ∧ resolveOutputPath (parsePath ("sub/out.ext")) = parsePath ("sub/out.ext")
    ∧ (∀ (st : List PyPath) (p : PyPath),
      mkdir st p true true = Except.ok (mkdirResult st p)
      ∧ mkdir (mkdirResult st p) p true true = Except.ok (mkdirResult st p)) := by
  refine ⟨?_, ?_, by decide, by decide, ?_⟩
  · intro name
    simp [resolveOutputPath, PyPath.parent, curdir, joinRel, mergedDir]
  · intro p h
    simp [resolveOutputPath, h]
  · intro st p
    have hsub : ∀ q ∈ ancestorChain p, q ∈ mkdirResult st p := by
      intro q hq
      by_cases hs : q ∈ st
      · exact List.mem_append.mpr (Or.inl hs)
      · exact List.mem_append.mpr (Or.inr (List.mem_filter.mpr ⟨hq, by simpa using hs⟩))
    have hnil : (ancestorChain p).filter (fun q => decide (¬ q ∈ mkdirResult st p)) = [] := by
      rw [List.filter_eq_nil_iff]
      intro q hq
      simp [hsub q hq]
    constructor
    · simp [mkdir]
    · simp [mkdir]
      show mkdirResult st p ++ _ = _
      rw [hnil, List.append_nil]

/-- C5 witness: a concrete output path with a directory component is kept
unchanged by the resolution step. -/
theorem c5_witness :
    (parsePath ("sub2/o.m4a")).parent ≠ curdir
    ∧ resolveOutputPath (parsePath ("sub2/o.m4a")) = parsePath ("sub2/o.m4a") :=
  ⟨by decide, c5.2.1 (parsePath ("sub2/o.m4a")) (by decide)⟩

/-- C6: the merge invocation succeeds exactly when the child exits zero; a
non-zero exit yields failure carrying the error-stream text; expiry of the
300-second timeout yields failure with a distinct fixed diagnostic; launch
failures yield failure; an interrupt escapes. -/
theorem c6 (run : List String → Nat → ProcResult) (resolve : String → String)
    (tempDir : String) (files : List String) (out : String) :
    (∀ (rc : Int) (so se : String),
      run (ffmpegCmd (tempDir ++ "/filelist.txt") out) mergeTimeout
          = ProcResult.completed rc so se →
      ((merge_m4a_files run resolve tempDir files out).status = MergeStatus.success
          ↔ rc = 0)
      ∧ (rc ≠ 0 →
          (merge_m4a_files run resolve tempDir files out).status = MergeStatus.failure
          ∧ ("✗ FFmpeg error: " ++ se)
              ∈ (merge_m4a_files run resolve tempDir files out).messages))
    ∧ (run (ffmpegCmd (tempDir ++ "/filelist.txt") out) mergeTimeout = ProcResult.timedOut →
        (merge_m4a_files run resolve tempDir files out).status = MergeStatus.failure
        ∧ "✗ Merge timed out (5 minutes)"
            ∈ (merge_m4a_files run resolve tempDir files out).messages
        ∧ ∀ se : String, "✗ Merge timed out (5 minutes)" ≠ "✗ FFmpeg error: " ++ se)
    ∧ (∀ m, run (ffmpegCmd (tempDir ++ "/filelist.txt") out) mergeTimeout
          = ProcResult.fileNotFound m →
        (merge_m4a_files run resolve tempDir files out).status = MergeStatus.failure)
    ∧ (∀ m, run (ffmpegCmd (tempDir ++ "/filelist.txt") out) mergeTimeout
          = ProcResult.raised m →
        (merge_m4a_files run resolve tempDir files out).status = MergeStatus.failure)
    ∧ (run (ffmpegCmd (tempDir ++ "/filelist.txt") out) mergeTimeout
          = ProcResult.interrupted →
        (merge_m4a_files run resolve tempDir files out).status = MergeStatus.interrupted) := by
  refine ⟨?_, ?_, ?_, ?_, ?_⟩
  · intro rc so se h
    constructor
    · by_cases hrc : rc = 0 <;> simp [merge_m4a_files, h, hrc]
    · intro hrc
      constructor
      · simp [merge_m4a_files, h, hrc]
      · simp [merge_m4a_files, h, hrc]
  · intro h
    refine ⟨by simp [merge_m4a_files, h], by simp [merge_m4a_files, h], ?_⟩
    exact timeoutMsg_ne_ffmpegErrMsg
  · intro m h; simp [merge_m4a_files, h]
  · intro m h; simp [merge_m4a_files, h]
  · intro h; simp [merge_m4a_files, h]

/-- C6 witness: a child that exits with code one and the text boom on its
error stream makes the merge report failure with that text attached. -/
theorem c6_witness :
    boomRunner (ffmpegCmd ("/t" ++ "/filelist.txt") ("o.m4a")) mergeTimeout
        = ProcResult.completed 1 ("") ("boom")
    ∧ (1 : Int) ≠ 0
    ∧ (merge_m4a_files boomRunner id ("/t") ["a.m4a"] ("o.m4a")).status
        = MergeStatus.failure
    ∧ ("✗ FFmpeg error: " ++ "boom")
        ∈ (merge_m4a_files boomRunner id ("/t") ["a.m4a"] ("o.m4a")).messages :=
  ⟨rfl, by decide,
    (((c6 boomRunner id ("/t") ["a.m4a"] ("o.m4a")).1 1 ("") ("boom") rfl).2
      (by decide)).1,
    (((c6 boomRunner id ("/t") ["a.m4a"] ("o.m4a")).1 1 ("") ("boom") rfl).2
      (by decide)).2⟩

/-- C7 counterexample: a launch failure other than the file-not-found case,
here a permission error, is not caught by the availability check and escapes
instead of yielding false. -/
theorem c7_counterexample :
    check_ffmpeg permRunner = Except.error (PyExn.exn ("PermissionError"))
    ∧ check_ffmpeg permRunner ≠ Except.ok false :=
  ⟨rfl, fun h => nomatch h⟩

/-- C7 amended: the availability check returns a boolean; a launch failure
because the executable is not found, a non-zero exit, and a timeout of the
10-second bound all yield false; a completed probe yields the zero-exit test;
but any other exception raised at launch escapes uncaught. -/
theorem c7_amended (run : List String → Nat → ProcResult) :
    (∀ (rc : Int) (so se : String),
      run probeCmd checkTimeout = ProcResult.completed rc so se →
      check_ffmpeg run = Except.ok (decide (rc = 0)))
    ∧ (run probeCmd checkTimeout = ProcResult.timedOut →
      check_ffmpeg run = Except.ok false)
    ∧ (∀ m, run probeCmd checkTimeout = ProcResult.fileNotFound m →
      check_ffmpeg run = Except.ok false)
    ∧ (∀ m, run probeCmd checkTimeout = ProcResult.raised m →
      check_ffmpeg run = Except.error (PyExn.exn m)) := by
  refine ⟨?_, ?_, ?_, ?_⟩ <;> intros <;> simp [check_ffmpeg, *]

/-- C7 witness: a probe that fails to launch because the tool is absent makes
the availability check return false. -/
theorem c7_witness :
    missingRunner probeCmd checkTimeout = ProcResult.fileNotFound ("ffmpeg")
    ∧ check_ffmpeg missingRunner = Except.ok false :=
  ⟨rfl, (c7_amended missingRunner).2.2.1 ("ffmpeg") rfl⟩

/-- C8: the manifest writer does not escape an embedded single quote, despite
the comment in the source announcing escaping: for a path holding a quote the
written line fails the quoted-path grammar, while a quote-free path passes. -/
theorem c8_eval :
    manifestLineFor id quotePathEx = "file " ++ sq ++ quotePathEx ++ sq
    ∧ wellFormedManifestLine (manifestLineFor id quotePathEx) = false
    ∧ wellFormedManifestLine (manifestLineFor id ("/tmp/a.m4a")) = true :=
  ⟨rfl, by decide, by decide⟩

end M4aMerger
